import Mathlib

/-!
Verification of the textual protocol layer of the amadeus-engine repository:
directive extraction (`findCodeBlocks`), final-answer resolution
(`findFinalAnswer`) from `src/utils/parsing.ts`, and prompt assembly
(`createQueryMetadata`, `buildRlmSystemPrompt`, `buildUserPrompt`) from
`src/utils/prompts.ts`.  The JavaScript string/regex operations are embedded
as executable functions over `List Char` / `String`.
-/

set_option maxRecDepth 40000

namespace Amadeus

/-- The backtick character (U+0060). -/
def btChar : Char := Char.ofNat 96

/-- The double-quote character (U+0022). -/
def dqChar : Char := Char.ofNat 34

/-- The single-quote character (U+0027). -/
def sqChar : Char := Char.ofNat 39

/-- The closing-parenthesis character. -/
def rpChar : Char := Char.ofNat 41

/-- JavaScript `\s` (whitespace) character class, as used by the regexes and
by `String.prototype.trim`: ASCII whitespace plus the Unicode space
separators, NEL, BOM and the line/paragraph separators. -/
def isWs (c : Char) : Bool :=
  c = ' ' || c = '\t' || c = '\n' || c = '\r' ||
  c = Char.ofNat 11 || c = Char.ofNat 12 ||
  c = Char.ofNat 0xa0 || c = Char.ofNat 0x1680 ||
  (0x2000 ≤ c.toNat && c.toNat ≤ 0x200a) ||
  c = Char.ofNat 0x2028 || c = Char.ofNat 0x2029 ||
  c = Char.ofNat 0x202f || c = Char.ofNat 0x205f ||
  c = Char.ofNat 0x3000 || c = Char.ofNat 0xfeff

/-- `startsWith pat s`: `pat` is a prefix of `s`. -/
def startsWith : List Char → List Char → Bool
  | [], _ => true
  | _ :: _, [] => false
  | p :: ps, c :: cs => p == c && startsWith ps cs

/-- Index of the first occurrence of `pat` as a contiguous sublist of `s`
(the semantics of a JavaScript regex engine looking for a literal pattern:
leftmost occurrence). -/
def findSub (pat : List Char) : List Char → Option Nat
  | [] => if startsWith pat [] then some 0 else none
  | c :: tl =>
    if startsWith pat (c :: tl) then some 0
    else (findSub pat tl).map (fun n => n + 1)

/-- JavaScript `String.prototype.trim`. -/
def trimWs (l : List Char) : List Char :=
  ((l.dropWhile isWs).reverse.dropWhile isWs).reverse

/-- Is the character a single or double quote? -/
def isQuote (c : Char) : Bool := c = dqChar || c = sqChar

/-- `replace(/^["']|["']$/g, "")` from `findFinalAnswer`: remove at most one
leading quote character and at most one trailing quote character; the two
need not match. -/
def stripEdgeQuotes (l : List Char) : List Char :=
  let l1 := match l with
    | [] => []
    | c :: rest => if isQuote c then rest else c :: rest
  match l1.reverse with
  | [] => []
  | c :: rest => if isQuote c then rest.reverse else l1

/-- `"FINAL_VAR("` as a character list. -/
def finalVarOpen : List Char := "FINAL_VAR(".data

/-- `"FINAL("` as a character list. -/
def finalOpen : List Char := "FINAL(".data

/-- Leftmost match of a regex of the form `opener([^)]+)\)` (used for
`FINAL_VAR\(([^)]+)\)` and `FINAL\(([^)]+)\)`): at each position, the literal
opener must be followed by a nonempty run of non-`)` characters terminated by
`)`.  Returns the captured group. -/
def matchCallRaw (opener : List Char) : List Char → Option (List Char)
  | [] => none
  | c :: tl =>
    if startsWith opener (c :: tl) then
      let t := (c :: tl).drop opener.length
      let run := t.takeWhile (fun d => ¬ (d = rpChar))
      if run.isEmpty then matchCallRaw opener tl
      else if run.length < t.length then some run
      else matchCallRaw opener tl
    else matchCallRaw opener tl

/-- Leftmost match of `FINAL\(q([^q]*)q\)` where `q` is a quote character
(used for `FINAL\("([^"]*)"\)` and `FINAL\('([^']*)'\)`).  Returns the
captured group (the unquoted contents). -/
def matchQuoted (q : Char) : List Char → Option (List Char)
  | [] => none
  | c :: tl =>
    if startsWith (finalOpen ++ [q]) (c :: tl) then
      let t := (c :: tl).drop 7
      let run := t.takeWhile (fun d => ¬ (d = q))
      match t.drop run.length with
      | _ :: d :: _ => if d = rpChar then some run else matchQuoted q tl
      | _ => matchQuoted q tl
    else matchQuoted q tl

/-! JSON-serialisable JavaScript values, as can appear in the execution
environment (`Record<string, unknown>` restricted to the serialisable
domain the code handles).  Lists and objects use their own mutual
constructors so that serialisation is structurally recursive. -/
mutual
inductive JsValue where
  | str : String → JsValue
  | num : Int → JsValue
  | boolean : Bool → JsValue
  | null : JsValue
  | arr : JsArr → JsValue
  | obj : JsObj → JsValue
inductive JsArr where
  | nil : JsArr
  | cons : JsValue → JsArr → JsArr
inductive JsObj where
  | nil : JsObj
  | cons : String → JsValue → JsObj → JsObj
end

deriving instance DecidableEq for JsValue, JsArr, JsObj

/-- Hexadecimal digit, lower case (for JSON control-character escapes). -/
def hexDigit (n : Nat) : Char :=
  if n < 10 then Char.ofNat (48 + n) else Char.ofNat (87 + n)

/-- JSON escaping of a single character inside a string literal, as performed
by `JSON.stringify`. -/
def escJsonChar (c : Char) : List Char :=
  if c = dqChar then ['\\', dqChar]
  else if c = '\\' then ['\\', '\\']
  else if c = Char.ofNat 8 then ['\\', 'b']
  else if c = '\t' then ['\\', 't']
  else if c = '\n' then ['\\', 'n']
  else if c = Char.ofNat 12 then ['\\', 'f']
  else if c = '\r' then ['\\', 'r']
  else if c.toNat < 32 then
    ['\\', 'u', '0', '0', hexDigit (c.toNat / 16), hexDigit (c.toNat % 16)]
  else [c]

/-- `JSON.stringify` of a string value. -/
def quoteJson (s : String) : String :=
  String.mk (dqChar :: (s.data.flatMap escJsonChar ++ [dqChar]))

/-- Decimal rendering of an integer, as `JSON.stringify`/`String(n)` render
(the code only ever serialises integral numbers). -/
def intToDec : Int → String
  | Int.ofNat n => Nat.repr n
  | Int.negSucc n => "-" ++ Nat.repr (n + 1)

/-! `JSON.stringify` over the modelled value domain. -/
mutual
def stringify : JsValue → String
  | .str s => quoteJson s
  | .num i => intToDec i
  | .boolean b => if b then "true" else "false"
  | .null => "null"
  | .arr vs => "[" ++ stringifyArr vs ++ "]"
  | .obj kvs => "\x7b" ++ stringifyObj kvs ++ "\x7d"
def stringifyArr : JsArr → String
  | .nil => ""
  | .cons v .nil => stringify v
  | .cons v (.cons w vs) => stringify v ++ "," ++ stringifyArr (.cons w vs)
def stringifyObj : JsObj → String
  | .nil => ""
  | .cons k v .nil => quoteJson k ++ ":" ++ stringify v
  | .cons k v (.cons k2 v2 kvs) =>
    quoteJson k ++ ":" ++ stringify v ++ "," ++ stringifyObj (.cons k2 v2 kvs)
end

/-- The string the `FINAL_VAR` branch of `findFinalAnswer` produces for a
looked-up value: `typeof value === "string" ? value : JSON.stringify(value)`. -/
def jsValueToString : JsValue → String
  | .str s => s
  | .num i => stringify (.num i)
  | .boolean b => stringify (.boolean b)
  | .null => stringify .null
  | .arr vs => stringify (.arr vs)
  | .obj kvs => stringify (.obj kvs)

/-- The execution environment: an ordered record of variable bindings. -/
def Env := List (String × JsValue)

/-- Membership-then-lookup (`varName in environment` / `environment[varName]`). -/
def envLookup (name : String) : List (String × JsValue) → Option JsValue
  | [] => none
  | (k, v) :: rest => if k = name then some v else envLookup name rest

/-- `findFinalAnswer` from `src/utils/parsing.ts`:

1. `FINAL_VAR\(([^)]+)\)` first: trim the captured argument, strip at most
   one leading/trailing quote, look it up in the environment; absent
   environment or unknown name give `undefined` without falling through.
2. otherwise `FINAL\("([^"]*)"\)`,
3. otherwise `FINAL\('([^']*)'\)`,
4. otherwise `FINAL\(([^)]+)\)`,
5. otherwise `undefined`. -/
def findFinalAnswer (text : String) (environment : Option (List (String × JsValue))) :
    Option String :=
  match matchCallRaw finalVarOpen text.data with
  | some rawArg =>
    let varName := String.mk (stripEdgeQuotes (trimWs rawArg))
    match environment with
    | none => none
    | some env =>
      match envLookup varName env with
      | none => none
      | some v => some (jsValueToString v)
  | none =>
    match matchQuoted dqChar text.data with
    | some s => some (String.mk s)
    | none =>
      match matchQuoted sqChar text.data with
      | some s => some (String.mk s)
      | none => (matchCallRaw finalOpen text.data).map String.mk

/-- `"```repl"` — the mandatory literal head of the code-block regex. -/
def fenceWord : List Char := [btChar, btChar, btChar, 'r', 'e', 'p', 'l']

/-- `"\n```"` — the literal that closes a matched code block. -/
def nlFence : List Char := ['\n', btChar, btChar, btChar]

lemma fenceWord_eq_data : fenceWord = "```repl".data := by decide

lemma nlFence_eq_data : nlFence = "\n```".data := by decide

/-- Candidate lengths for the greedy `\s*` in `` ```repl\s*\n ``:
all `k` inside the maximal whitespace run after `` ```repl `` such that the
`k`-th character is a newline (so `\s*` can take `k` characters and the
literal `\n` the next one), tried longest first, as a backtracking greedy
quantifier does. -/
def nlCandidates (t : List Char) : List Nat :=
  ((List.range (t.takeWhile isWs).length).filter
    (fun k => t.get? k = some '\n')).reverse

/-- One attempt of the regex `` ```repl\s*\n(.*?)\n``` `` (flags `gs`)
anchored at the head of `s`: the literal `` ```repl ``, then the greedy
`\s*` followed by `\n` (backtracking from the longest whitespace prefix),
then the lazy `(.*?)` — everything up to the first following `"\n```"`.
Returns the captured group and the remainder of the input after the match. -/
def matchRepl (s : List Char) : Option (List Char × List Char) :=
  if startsWith fenceWord s then
    let t := s.drop 7
    (nlCandidates t).findSome? (fun k =>
      match findSub nlFence (t.drop (k + 1)) with
      | some p => some ((t.drop (k + 1)).take p, (t.drop (k + 1)).drop (p + 4))
      | none => none)
  else none

/-- The `pattern.exec` loop of `findCodeBlocks`: scan left to right; at each
position attempt `matchRepl`; on success emit the captured block and resume
after the match. `fuel` bounds the recursion and is instantiated with the
input length. -/
def scanAux : Nat → List Char → List (List Char)
  | 0, _ => []
  | _ + 1, [] => []
  | fuel + 1, c :: cs =>
    match matchRepl (c :: cs) with
    | some (content, rest) => content :: scanAux fuel rest
    | none => scanAux fuel cs

/-- `findCodeBlocks` on character lists. -/
def findCodeBlocksL (s : List Char) : List (List Char) := scanAux s.length s

/-- `findCodeBlocks` from `src/utils/parsing.ts`: all blocks matched by
`/```repl\s*\n(.*?)\n```/gs`, in source order. -/
def findCodeBlocks (text : String) : List String :=
  (findCodeBlocksL text.data).map String.mk

/-! ### Prompt assembly (`src/utils/prompts.ts`) -/

/-- Message roles. -/
inductive Role where
  | system : Role
  | user : Role
  | assistant : Role
deriving DecidableEq, Repr

/-- A message in the LLM conversation. -/
structure Message where
  role : Role
  content : String
deriving DecidableEq, Repr

/-- Metadata about the context provided to the RLM. -/
structure QueryMetadata where
  contextLengths : List Nat
  contextTotalLength : Nat
  contextType : String
deriving DecidableEq, Repr

/-- The polymorphic `context` argument of `createQueryMetadata`:
`string | string[] | Record<string, unknown>` (array elements and record
values may be arbitrary serialisable values; the code measures non-strings
by their `JSON.stringify` length). -/
inductive ContextVal where
  | str : String → ContextVal
  | list : List JsValue → ContextVal
  | dict : List (String × JsValue) → ContextVal

/-- Length of one chunk: `typeof chunk === "string" ? chunk.length :
JSON.stringify(chunk).length`. -/
def chunkLen (v : JsValue) : Nat :=
  match v with
  | .str s => s.length
  | v => (stringify v).length

/-- `createQueryMetadata` from `src/utils/prompts.ts`. -/
def createQueryMetadata : ContextVal → QueryMetadata
  | .str s => ⟨[s.length], s.length, "str"⟩
  | .list [] => ⟨[0], 0, "list"⟩
  | .list (c :: cs) =>
    let lengths := (c :: cs).map chunkLen
    ⟨lengths, lengths.foldl (fun a b => a + b) 0, "list"⟩
  | .dict kvs =>
    let lengths := kvs.map (fun kv => chunkLen kv.2)
    ⟨lengths, lengths.foldl (fun a b => a + b) 0, "dict"⟩

/-- The `lengthsStr` computation of `buildRlmSystemPrompt`: a bracketed
comma-separated list, truncated to the first 100 entries with an explicit
`... [k others]` suffix when there are more than 100 entries. -/
def lengthsStr (contextLengths : List Nat) : String :=
  if contextLengths.length > 100 then
    "[" ++ String.intercalate ", " ((contextLengths.take 100).map Nat.repr) ++
    "]... [" ++ Nat.repr (contextLengths.length - 100) ++ " others]"
  else
    "[" ++ String.intercalate ", " (contextLengths.map Nat.repr) ++ "]"

/-- The `metadataPrompt` sentence of `buildRlmSystemPrompt`. -/
def metadataPrompt (m : QueryMetadata) : String :=
  "Your context is a " ++ m.contextType ++ " with " ++
  Nat.repr m.contextTotalLength ++
  " total characters, and is broken up into chunks of char lengths: " ++
  lengthsStr m.contextLengths ++ "."

/-- `buildRlmSystemPrompt` from `src/utils/prompts.ts`. -/
def buildRlmSystemPrompt (systemPrompt : String) (queryMetadata : QueryMetadata) :
    List Message :=
  [⟨.system, systemPrompt⟩, ⟨.assistant, metadataPrompt queryMetadata⟩]

/-- Options for building user prompts (absent fields take the destructuring
defaults of `buildUserPrompt`). -/
structure PromptOptions where
  rootPrompt : Option String := none
  iteration : Nat := 0
  contextCount : Nat := 1
  historyCount : Nat := 0

/-- The `USER_PROMPT` template constant. -/
def USER_PROMPT : String :=
  "Think step-by-step on what to do using the REPL environment (which contains the context) to answer the prompt.\n\nContinue using the REPL environment, which has the `context` variable, and querying sub-LLMs by writing to ```repl``` tags, and determine your answer. Your next action:"

/-- The `USER_PROMPT_WITH_ROOT` template constant. -/
def USER_PROMPT_WITH_ROOT : String :=
  "Think step-by-step on what to do using the REPL environment (which contains the context) to answer the original prompt: \x22{rootPrompt}\x22.\n\nContinue using the REPL environment, which has the `context` variable, and querying sub-LLMs by writing to ```repl``` tags, and determine your answer. Your next action:"

/-- JavaScript `String.prototype.replace` with a string pattern: replace the
first occurrence only. -/
def replaceFirst (s pat rep : String) : String :=
  match findSub pat.data s.data with
  | none => s
  | some p => String.mk (s.data.take p ++ rep.data ++ s.data.drop (p + pat.data.length))

/-- The base prompt selected by `buildUserPrompt` before the optional
notices: iteration-0 safeguard or later-iteration prefix, and the root-prompt
template variant when `rootPrompt` is present. -/
def userBasePrompt (o : PromptOptions) : String :=
  let base := match o.rootPrompt with
    | some rp => replaceFirst USER_PROMPT_WITH_ROOT "{rootPrompt}" rp
    | none => USER_PROMPT
  if o.iteration = 0 then
    "You have not interacted with the REPL environment or seen your prompt / context yet. Your next action should be to look through and figure out how to answer the prompt, so don\x27t just provide a final answer yet.\n\n" ++ base
  else
    "The history before is your previous interactions with the REPL environment. " ++ base

/-- The multi-context notice appended when `contextCount > 1`. -/
def contextNotice (n : Nat) : String :=
  "\n\nNote: You have " ++ Nat.repr n ++ " contexts available (context_0 through context_" ++
  Nat.repr (n - 1) ++ ")."

/-- The singular history notice appended when `historyCount === 1`. -/
def historyNoticeOne : String :=
  "\n\nNote: You have 1 prior conversation history available in the `history` variable."

/-- The plural history notice appended when `historyCount > 1`. -/
def historyNoticeMany (n : Nat) : String :=
  "\n\nNote: You have " ++ Nat.repr n ++
  " prior conversation histories available (history_0 through history_" ++
  Nat.repr (n - 1) ++ ")."

/-- `buildUserPrompt` from `src/utils/prompts.ts`. -/
def buildUserPrompt (options : Option PromptOptions) : Message :=
  let o := options.getD {}
  let prompt := userBasePrompt o
  let prompt := prompt ++ (if o.contextCount > 1 then contextNotice o.contextCount else "")
  let prompt := prompt ++
    (if o.historyCount > 0 then
      (if o.historyCount = 1 then historyNoticeOne else historyNoticeMany o.historyCount)
    else "")
  ⟨.user, prompt⟩

/-! ### A structured model of response documents

To state the directive-extraction claims for all texts of the shape the spec
describes (a mix of `repl`-tagged fences, other-tagged fences and plain
prose), documents are modelled as segment lists and rendered to text. -/

/-- `"repl"` as a character list. -/
def replWord : List Char := ['r', 'e', 'p', 'l']

/-- Three backticks. -/
def bt3 : List Char := [btChar, btChar, btChar]

/-- A document segment: an executable fence with its content, a fence with a
different tag, or plain prose. -/
inductive Seg where
  | repl : List Char → Seg
  | tagged : List Char → List Char → Seg
  | prose : List Char → Seg

/-- Render one segment to text: `` ```repl\n<content>\n``` `` for executable
fences, `` ```<tag>\n<content>\n``` `` for other fences, prose verbatim. -/
def renderSeg : Seg → List Char
  | .repl c => (fenceWord ++ ['\n']) ++ (c ++ nlFence)
  | .tagged tag cnt => btChar :: btChar :: btChar :: (tag ++ '\n' :: (cnt ++ nlFence))
  | .prose t => t

/-- Render a document. -/
def renderDoc : List Seg → List Char
  | [] => []
  | s :: rest => renderSeg s ++ renderDoc rest

/-- The contents of the `repl`-tagged fences of a document, in source order. -/
def replContents : List Seg → List (List Char)
  | [] => []
  | .repl c :: rest => c :: replContents rest
  | .tagged _ _ :: rest => replContents rest
  | .prose _ :: rest => replContents rest

/-- No backtick characters. -/
def noBt (l : List Char) : Bool := l.all (fun c => c != btChar)

/-- Well-formed executable-fence content: nonempty, not starting with
whitespace, and not containing the closing delimiter `"\n```"`. -/
def wfContent (c : List Char) : Bool :=
  (match c with | [] => false | a :: _ => !(isWs a)) && (findSub nlFence c).isNone

/-- Well-formed non-`repl` fence tag: nonempty, free of whitespace and
backticks, and not the tag `repl` itself. -/
def wfTag (t : List Char) : Bool :=
  (!t.isEmpty && t.all (fun c => !(isWs c) && c != btChar)) && !(t == replWord)

/-- Well-formed segment: executable fences have well-formed content; other
fences have a well-formed tag and backtick-free content; prose is
backtick-free. -/
def wfSeg : Seg → Bool
  | .repl c => wfContent c
  | .tagged t c => wfTag t && noBt c
  | .prose t => noBt t

/-- Well-formed document: every segment is well-formed and no segment
boundary continues with the bare word `repl` (which, straight after a
closing fence, would fabricate a `` ```repl `` opening). -/
def wfDoc : List Seg → Bool
  | [] => true
  | s :: rest =>
    (wfSeg s && !(startsWith replWord (renderDoc rest))) && wfDoc rest

/-! ### Helper lemmas -/

lemma nlFence_cons : nlFence = '\n' :: bt3 := rfl

lemma startsWith_append_self (p x : List Char) : startsWith p (p ++ x) = true := by
  induction p with
  | nil => simp [startsWith]
  | cons a ps ih => simp [startsWith, ih]

lemma findSub_cons_eq (pat : List Char) (c : Char) (tl : List Char) :
    findSub pat (c :: tl) =
      if startsWith pat (c :: tl) then some 0
      else (findSub pat tl).map (fun n => n + 1) := rfl

lemma take_len_append (l x : List Char) : (l ++ x).take l.length = l := by
  induction l with
  | nil => simp
  | cons a l' ih => simp [List.take, ih]

lemma drop_len_append (l x : List Char) : (l ++ x).drop l.length = x := by
  induction l with
  | nil => simp
  | cons a l' ih => simp [List.drop, ih]

lemma drop_len_append_plus (l x : List Char) (n : Nat) :
    (l ++ x).drop (l.length + n) = x.drop n := by
  induction l with
  | nil => simp
  | cons a l' ih =>
    have harith : l'.length + 1 + n = (l'.length + n) + 1 := by omega
    simp only [List.cons_append, List.length_cons, harith, List.drop_succ_cons]
    exact ih

/-- Extending a list that does not start with three backticks by a segment
whose head is a newline cannot create a three-backtick prefix. -/
lemma startsWith_bt3_extend (c' w : List Char) (h : startsWith bt3 c' = false) :
    startsWith bt3 (c' ++ ('\n' :: w)) = false := by
  rcases c' with _ | ⟨x, _ | ⟨y, _ | ⟨z, v⟩⟩⟩
  · simp only [List.nil_append, bt3, startsWith]
    simp [(by decide : (btChar == '\n') = false)]
  · simp only [List.cons_append, List.nil_append, bt3, startsWith]
    simp [(by decide : (btChar == '\n') = false)]
  · simp only [List.cons_append, List.nil_append, bt3, startsWith]
    simp [(by decide : (btChar == '\n') = false)]
  · simp only [bt3, startsWith, List.cons_append] at h ⊢
    exact h

/-- If `"\n```"` does not occur in `c`, then in `c ++ "\n```" ++ r` its first
occurrence is exactly at the end of `c`: an occurrence cannot straddle the
boundary. -/
lemma findSub_nlFence_append (c r : List Char) (h : findSub nlFence c = none) :
    findSub nlFence (c ++ (nlFence ++ r)) = some c.length := by
  induction c with
  | nil =>
    have hx : nlFence ++ r = '\n' :: (bt3 ++ r) := by
      simp [nlFence, bt3]
    simp only [List.nil_append, List.length_nil, hx, findSub_cons_eq]
    rw [if_pos]
    rw [← hx]
    exact startsWith_append_self nlFence r
  | cons a c' ih =>
    rw [findSub_cons_eq] at h
    by_cases hsw : startsWith nlFence (a :: c') = true
    · rw [if_pos hsw] at h
      simp at h
    · simp only [Bool.not_eq_true] at hsw
      rw [hsw] at h
      simp only [Bool.false_eq_true, if_false] at h
      have hfc : findSub nlFence c' = none := by
        cases hgc : findSub nlFence c' with
        | none => rfl
        | some p => rw [hgc] at h; simp at h
      have hext : startsWith nlFence (a :: (c' ++ (nlFence ++ r))) = false := by
        rw [nlFence_cons] at hsw ⊢
        simp only [startsWith] at hsw ⊢
        by_cases ha : ('\n' == a) = true
        · rw [ha] at hsw ⊢
          simp only [Bool.true_and] at hsw ⊢
          exact startsWith_bt3_extend c' (bt3 ++ r) hsw
        · simp only [Bool.not_eq_true] at ha
          rw [ha]
          simp
      rw [List.cons_append, findSub_cons_eq, hext]
      simp only [Bool.false_eq_true, if_false, ih hfc, Option.map_some]
      simp


/-- A successful raw-argument capture is nonempty and contains no closing
parenthesis (it is the text up to, but not including, the first `)`). -/
lemma matchCallRaw_sound (opener : List Char) :
    ∀ (s cap : List Char), matchCallRaw opener s = some cap →
      cap ≠ [] ∧ rpChar ∉ cap := by
  intro s
  induction s with
  | nil => intro cap h; simp [matchCallRaw] at h
  | cons c tl ih =>
    intro cap h
    simp only [matchCallRaw] at h
    split_ifs at h with h1 h2 h3
    · exact ih cap h
    · simp only [Option.some.injEq] at h
      subst h
      refine ⟨?_, ?_⟩
      · intro hnil
        rw [hnil] at h2
        simp at h2
      · intro hmem
        have := List.mem_takeWhile_imp hmem
        simp at this
    · exact ih cap h
    · exact ih cap h

/-- `foldl (+) n` on naturals is `n` plus the sum. -/
lemma foldl_add_eq_sum : ∀ (l : List Nat) (n : Nat),
    l.foldl (fun a b => a + b) n = n + l.sum := by
  intro l
  induction l with
  | nil => intro n; simp
  | cons x xs ih => intro n; simp [List.foldl_cons, ih, List.sum_cons]; omega

/-- At an opening `` ```repl `` fence followed by a newline and well-formed
content, the regex attempt succeeds, captures exactly the content (everything
up to the first `"\n```"`), and leaves exactly the text after the closing
backticks — regardless of what `r` holds, in particular when the closing
backticks are followed by more text on the same line. -/
lemma matchRepl_at_fence (a : Char) (c' r : List Char)
    (ha : isWs a = false) (hns : findSub nlFence (a :: c') = none) :
    matchRepl (fenceWord ++ ('\n' :: ((a :: c') ++ (nlFence ++ r)))) =
      some (a :: c', r) := by
  have hpre : startsWith fenceWord
      (fenceWord ++ ('\n' :: ((a :: c') ++ (nlFence ++ r)))) = true :=
    startsWith_append_self _ _
  have hdrop : (fenceWord ++ ('\n' :: ((a :: c') ++ (nlFence ++ r)))).drop 7 =
      '\n' :: ((a :: c') ++ (nlFence ++ r)) := by
    have h7 : fenceWord.length = 7 := rfl
    rw [← h7, drop_len_append]
  have htw : ('\n' :: ((a :: c') ++ (nlFence ++ r))).takeWhile isWs = ['\n'] := by
    simp [List.takeWhile_cons, (by decide : isWs '\n' = true), ha]
  have hcand : nlCandidates ('\n' :: ((a :: c') ++ (nlFence ++ r))) = [0] := by
    rw [nlCandidates, htw]
    simp [(by decide : List.range 1 = [0])]
  simp only [matchRepl, hpre, if_true, hdrop, hcand, List.findSome?]
  simp only [List.drop_succ_cons, List.drop_zero]
  simp only [findSub_nlFence_append (a :: c') r hns]
  rw [take_len_append, drop_len_append_plus]
  simp [nlFence]

/-- A scan position whose text does not start with `` ```repl `` cannot
match. -/
lemma matchRepl_none_of_not_fence (s : List Char)
    (h : startsWith fenceWord s = false) : matchRepl s = none := by
  rw [matchRepl, h]
  simp

/-- A scan position starting with a non-backtick character cannot match. -/
lemma matchRepl_cons_of_ne (a : Char) (l : List Char) (h : a ≠ btChar) :
    matchRepl (a :: l) = none := by
  apply matchRepl_none_of_not_fence
  simp only [fenceWord, startsWith]
  have hba : (btChar == a) = false := by
    rw [beq_eq_false_iff_ne]
    exact fun hh => h hh.symm
  rw [hba]
  simp

/-- An opening fence with a well-formed non-`repl` tag cannot match: either
the literal `` ```repl `` is not present, or (for a tag that extends `repl`)
the mandatory `\s*\n` fails on the tag's next character. -/
lemma matchRepl_tagged_open (tag z : List Char) (hw : wfTag tag = true) :
    matchRepl (btChar :: btChar :: btChar :: (tag ++ '\n' :: z)) = none := by
  simp only [wfTag, Bool.and_eq_true, Bool.not_eq_true', List.all_eq_true,
    beq_eq_false_iff_ne] at hw
  obtain ⟨⟨hemp, hall⟩, hnr⟩ := hw
  rcases tag with _ | ⟨t0, _ | ⟨t1, _ | ⟨t2, _ | ⟨t3, tl⟩⟩⟩⟩
  · simp at hemp
  · apply matchRepl_none_of_not_fence
    simp only [List.cons_append, List.nil_append, fenceWord, startsWith]
    simp [(by decide : (('e' : Char) == '\n') = false)]
  · apply matchRepl_none_of_not_fence
    simp only [List.cons_append, List.nil_append, fenceWord, startsWith]
    simp [(by decide : (('p' : Char) == '\n') = false)]
  · apply matchRepl_none_of_not_fence
    simp only [List.cons_append, List.nil_append, fenceWord, startsWith]
    simp [(by decide : (('l' : Char) == '\n') = false)]
  · by_cases hr : t0 = 'r' ∧ t1 = 'e' ∧ t2 = 'p' ∧ t3 = 'l'
    · obtain ⟨h0, h1, h2, h3⟩ := hr
      subst h0; subst h1; subst h2; subst h3
      have htl : tl ≠ [] := by
        intro htl
        rw [htl] at hnr
        exact hnr rfl
      rcases tl with _ | ⟨u, tl'⟩
      · exact absurd rfl htl
      · have hu : isWs u = false := by
          have := hall u (by simp)
          exact this.1
        have hpre : startsWith fenceWord
            (btChar :: btChar :: btChar ::
              (('r' :: 'e' :: 'p' :: 'l' :: u :: tl') ++ '\n' :: z)) = true := by
          simp [fenceWord, startsWith]
        have hdrop :
            (btChar :: btChar :: btChar ::
              (('r' :: 'e' :: 'p' :: 'l' :: u :: tl') ++ '\n' :: z)).drop 7 =
            u :: (tl' ++ '\n' :: z) := by
          simp
        have hcand : nlCandidates (u :: (tl' ++ '\n' :: z)) = [] := by
          rw [nlCandidates]
          simp [List.takeWhile_cons, hu]
        simp only [matchRepl, hpre, if_true, hdrop, hcand, List.findSome?]
    · apply matchRepl_none_of_not_fence
      simp only [List.cons_append, fenceWord, startsWith, beq_self_eq_true,
        Bool.true_and]
      rw [Bool.eq_false_iff]
      intro hX
      simp only [Bool.and_eq_true, beq_iff_eq] at hX
      exact hr ⟨hX.1.symm, hX.2.1.symm, hX.2.2.1.symm, hX.2.2.2.1.symm⟩

/-- Closing-fence backticks followed by text not starting with `repl` cannot
open a match. -/
lemma matchRepl_close3 (r : List Char) (h : startsWith replWord r = false) :
    matchRepl (btChar :: btChar :: btChar :: r) = none := by
  cases r with
  | nil => decide
  | cons x rs =>
    apply matchRepl_none_of_not_fence
    simp only [fenceWord, startsWith, beq_self_eq_true, Bool.true_and]
    simp only [replWord, startsWith] at h
    exact h

/-- Two backticks followed by text not starting with `` `repl `` cannot open
a match. -/
lemma matchRepl_close2 (x : List Char)
    (h : startsWith (btChar :: replWord) x = false) :
    matchRepl (btChar :: btChar :: x) = none := by
  cases x with
  | nil => decide
  | cons a xs =>
    apply matchRepl_none_of_not_fence
    simp only [fenceWord, startsWith, beq_self_eq_true, Bool.true_and]
    simp only [startsWith, replWord] at h
    exact h

/-- One backtick followed by text not starting with `` ``repl `` cannot open
a match. -/
lemma matchRepl_close1 (x : List Char)
    (h : startsWith (btChar :: btChar :: replWord) x = false) :
    matchRepl (btChar :: x) = none := by
  cases x with
  | nil => decide
  | cons a xs =>
    apply matchRepl_none_of_not_fence
    simp only [fenceWord, startsWith, beq_self_eq_true, Bool.true_and]
    simp only [startsWith, replWord] at h
    exact h

lemma scanAux_cons_none (f : Nat) (a : Char) (l : List Char)
    (h : matchRepl (a :: l) = none) (hf : 1 ≤ f) :
    scanAux f (a :: l) = scanAux (f - 1) l := by
  cases f with
  | zero => omega
  | succ g => simp [scanAux, h]

lemma scanAux_step_some (f : Nat) (s content rest' : List Char)
    (h : matchRepl s = some (content, rest')) (hf : 1 ≤ f) :
    scanAux f s = content :: scanAux (f - 1) rest' := by
  cases f with
  | zero => omega
  | succ g =>
    cases s with
    | nil =>
      rw [matchRepl_none_of_not_fence [] (by simp [fenceWord, startsWith])] at h
      exact absurd h (by simp)
    | cons a l => simp [scanAux, h]

/-- Scanning through a backtick-free region finds nothing and consumes fuel
one character at a time. -/
lemma scanAux_append_noBt : ∀ (t : List Char), noBt t = true →
    ∀ (f : Nat) (r : List Char), t.length ≤ f →
      scanAux f (t ++ r) = scanAux (f - t.length) r := by
  intro t
  induction t with
  | nil => intro _ f r _; simp
  | cons a t' ih =>
    intro h f r hf
    simp only [noBt, List.all_cons, Bool.and_eq_true, bne_iff_ne] at h
    obtain ⟨ha, ht'⟩ := h
    have ht'' : noBt t' = true := by
      simp only [noBt, List.all_eq_true, bne_iff_ne]
      simp only [List.all_eq_true, bne_iff_ne] at ht'
      exact ht'
    simp only [List.length_cons] at hf
    cases f with
    | zero => omega
    | succ g =>
      rw [List.cons_append]
      rw [scanAux_cons_none (g + 1) a (t' ++ r)
        (matchRepl_cons_of_ne a _ ha) (by omega)]
      simp only [Nat.add_sub_cancel]
      rw [ih ht'' g r (by omega)]
      congr 1
      simp only [List.length_cons]
      omega

/-- A text in which `` ```repl `` never occurs yields no blocks. -/
lemma scanAux_no_fence : ∀ (s : List Char) (f : Nat),
    findSub fenceWord s = none → scanAux f s = [] := by
  intro s
  induction s with
  | nil => intro f _; cases f <;> simp [scanAux]
  | cons a tl ih =>
    intro f h
    rw [findSub_cons_eq] at h
    by_cases hsw : startsWith fenceWord (a :: tl) = true
    · rw [if_pos hsw] at h
      simp at h
    · simp only [Bool.not_eq_true] at hsw
      rw [hsw] at h
      simp only [Bool.false_eq_true, if_false] at h
      have htl : findSub fenceWord tl = none := by
        cases hgc : findSub fenceWord tl with
        | none => rfl
        | some p => rw [hgc] at h; simp at h
      cases f with
      | zero => simp [scanAux]
      | succ g =>
        simp only [scanAux, matchRepl_none_of_not_fence _ hsw]
        exact ih g htl

/-- A well-formed document's rendering never starts with one or two backticks
followed by `repl` (it starts with a fence's three backticks, with
backtick-free prose, or is empty). -/
lemma render_no_bt_repl : ∀ (l : List Seg), wfDoc l = true →
    startsWith (btChar :: replWord) (renderDoc l) = false ∧
    startsWith (btChar :: btChar :: replWord) (renderDoc l) = false := by
  intro l
  induction l with
  | nil =>
    intro _
    constructor <;> simp [renderDoc, startsWith]
  | cons s rest ih =>
    intro hw
    simp only [wfDoc, Bool.and_eq_true] at hw
    obtain ⟨⟨hws, _⟩, hwrest⟩ := hw
    match s with
    | .prose t =>
      rcases t with _ | ⟨a, t'⟩
      · simpa [renderDoc, renderSeg] using ih hwrest
      · have ha : (btChar == a) = false := by
          simp only [wfSeg, noBt, List.all_cons, Bool.and_eq_true, bne_iff_ne] at hws
          rw [beq_eq_false_iff_ne]
          exact fun hh => hws.1 hh.symm
        constructor <;>
          simp [renderDoc, renderSeg, startsWith, ha]
    | .repl c =>
      constructor <;>
        simp [renderDoc, renderSeg, fenceWord, startsWith, List.append_assoc,
          (by decide : (('r' : Char) == btChar) = false)]
    | .tagged tag cnt =>
      constructor <;>
        simp [renderDoc, renderSeg, startsWith,
          (by decide : (('r' : Char) == btChar) = false)]

/-- The scan of a rendered well-formed document yields exactly the contents
of its `repl` fences, in order. -/
lemma scanAux_renderDoc : ∀ (segs : List Seg), wfDoc segs = true →
    ∀ f, (renderDoc segs).length ≤ f →
      scanAux f (renderDoc segs) = replContents segs := by
  intro segs
  induction segs with
  | nil =>
    intro _ f _
    cases f <;> simp [renderDoc, scanAux, replContents]
  | cons s rest ih =>
    intro hw f hf
    simp only [wfDoc, Bool.and_eq_true, Bool.not_eq_true'] at hw
    obtain ⟨⟨hws, hnrepl⟩, hwrest⟩ := hw
    match s with
    | .repl c =>
      rcases c with _ | ⟨a, c'⟩
      · simp [wfSeg, wfContent] at hws
      · simp only [wfSeg, wfContent, Bool.and_eq_true, Bool.not_eq_true',
          Option.isNone_iff_eq_none] at hws
        obtain ⟨ha, hns⟩ := hws
        have hshape : renderDoc (Seg.repl (a :: c') :: rest) =
            fenceWord ++ ('\n' :: ((a :: c') ++ (nlFence ++ renderDoc rest))) := by
          simp [renderDoc, renderSeg, List.append_assoc]
        have hm : matchRepl (renderDoc (Seg.repl (a :: c') :: rest)) =
            some (a :: c', renderDoc rest) := by
          rw [hshape]
          exact matchRepl_at_fence a c' (renderDoc rest) ha hns
        have hlen : (renderDoc (Seg.repl (a :: c') :: rest)).length =
            c'.length + 13 + (renderDoc rest).length := by
          simp [renderDoc, renderSeg, fenceWord, nlFence]
          omega
        rw [hlen] at hf
        rw [scanAux_step_some f _ _ _ hm (by omega)]
        simp only [replContents]
        congr 1
        exact ih hwrest (f - 1) (by omega)
    | .tagged tag cnt =>
      simp only [wfSeg, Bool.and_eq_true] at hws
      obtain ⟨htag, hcnt⟩ := hws
      obtain ⟨t0, ts, htag_eq, ht0⟩ :
          ∃ t0 ts, tag = t0 :: ts ∧ (btChar == t0) = false := by
        rcases htg : tag with _ | ⟨t0, ts⟩
        · rw [htg] at htag
          simp [wfTag] at htag
        · refine ⟨t0, ts, rfl, ?_⟩
          rw [htg] at htag
          simp only [wfTag, Bool.and_eq_true, List.all_cons, Bool.not_eq_true',
            bne_iff_ne] at htag
          rw [beq_eq_false_iff_ne]
          exact fun hh => htag.1.2.1.2 hh.symm
      have hXbt : noBt (tag ++ '\n' :: (cnt ++ ['\n'])) = true := by
        simp only [noBt, List.all_append, List.all_cons, Bool.and_eq_true,
          List.all_eq_true, bne_iff_ne]
        refine ⟨?_, by decide, ?_, by decide, by simp⟩
        · intro x hx
          simp only [wfTag, Bool.and_eq_true, List.all_eq_true] at htag
          have := htag.1.2 x hx
          simp only [Bool.and_eq_true, bne_iff_ne] at this
          exact this.2
        · intro x hx
          simp only [noBt, List.all_eq_true, bne_iff_ne] at hcnt
          exact hcnt x hx
      have hshape : renderDoc (Seg.tagged tag cnt :: rest) =
          btChar :: btChar :: btChar ::
            ((tag ++ '\n' :: (cnt ++ ['\n'])) ++
              (btChar :: btChar :: btChar :: renderDoc rest)) := by
        simp [renderDoc, renderSeg, nlFence, List.append_assoc]
      have hlen : (renderDoc (Seg.tagged tag cnt :: rest)).length =
          tag.length + cnt.length + 8 + (renderDoc rest).length := by
        simp [renderDoc, renderSeg, nlFence]
        omega
      have hm1 : matchRepl (btChar :: btChar :: btChar ::
          ((tag ++ '\n' :: (cnt ++ ['\n'])) ++
            (btChar :: btChar :: btChar :: renderDoc rest))) = none := by
        have := matchRepl_tagged_open tag
          ((cnt ++ ['\n']) ++ (btChar :: btChar :: btChar :: renderDoc rest)) htag
        simpa [List.append_assoc] using this
      have hm2 : matchRepl (btChar :: btChar ::
          ((tag ++ '\n' :: (cnt ++ ['\n'])) ++
            (btChar :: btChar :: btChar :: renderDoc rest))) = none := by
        apply matchRepl_close2
        rw [htag_eq]
        simp [startsWith, ht0]
      have hm3 : matchRepl (btChar ::
          ((tag ++ '\n' :: (cnt ++ ['\n'])) ++
            (btChar :: btChar :: btChar :: renderDoc rest))) = none := by
        apply matchRepl_close1
        rw [htag_eq]
        simp [startsWith, ht0]
      have hrr := render_no_bt_repl rest hwrest
      have hm4 : matchRepl (btChar :: btChar :: btChar :: renderDoc rest) = none :=
        matchRepl_close3 (renderDoc rest) hnrepl
      have hm5 : matchRepl (btChar :: btChar :: renderDoc rest) = none :=
        matchRepl_close2 (renderDoc rest) hrr.1
      have hm6 : matchRepl (btChar :: renderDoc rest) = none :=
        matchRepl_close1 (renderDoc rest) hrr.2
      rw [hlen] at hf
      rw [hshape]
      rw [scanAux_cons_none f _ _ hm1 (by omega)]
      rw [scanAux_cons_none (f - 1) _ _ hm2 (by omega)]
      rw [scanAux_cons_none (f - 1 - 1) _ _ hm3 (by omega)]
      rw [scanAux_append_noBt _ hXbt (f - 1 - 1 - 1) _ (by simp; omega)]
      rw [scanAux_cons_none _ _ _ hm4 (by simp; omega)]
      rw [scanAux_cons_none _ _ _ hm5 (by simp; omega)]
      rw [scanAux_cons_none _ _ _ hm6 (by simp; omega)]
      simp only [replContents]
      apply ih hwrest
      simp
      omega
    | .prose t =>
      have hshape : renderDoc (Seg.prose t :: rest) = t ++ renderDoc rest := by
        simp [renderDoc, renderSeg]
      rw [hshape] at hf ⊢
      simp only [List.length_append] at hf
      rw [scanAux_append_noBt t hws f _ (by omega)]
      simp only [replContents]
      apply ih hwrest
      omega

/-! ### Claims about the Answer Resolver (`findFinalAnswer`) -/

/-- C1: `findFinalAnswer` resolves by rule precedence, not textual position:
the `FINAL_VAR` variable-marker rule wins whenever it matches anywhere in the
text, then the double-quoted literal rule, then the single-quoted literal
rule, then the raw-argument rule. -/
theorem c1_final_var_precedence (text : String) (env : Option (List (String × JsValue))) :
    (∀ arg, matchCallRaw finalVarOpen text.data = some arg →
      findFinalAnswer text env =
        (match env with
         | none => none
         | some e =>
           (envLookup (String.mk (stripEdgeQuotes (trimWs arg))) e).map jsValueToString)) ∧
    (matchCallRaw finalVarOpen text.data = none →
      ∀ s, matchQuoted dqChar text.data = some s →
        findFinalAnswer text env = some (String.mk s)) ∧
    (matchCallRaw finalVarOpen text.data = none →
      matchQuoted dqChar text.data = none →
      ∀ s, matchQuoted sqChar text.data = some s →
        findFinalAnswer text env = some (String.mk s)) ∧
    (matchCallRaw finalVarOpen text.data = none →
      matchQuoted dqChar text.data = none →
      matchQuoted sqChar text.data = none →
      findFinalAnswer text env = (matchCallRaw finalOpen text.data).map String.mk) := by
  refine ⟨?_, ?_, ?_, ?_⟩
  · intro arg h
    rw [findFinalAnswer, h]
    cases env with
    | none => rfl
    | some e =>
      cases henv : envLookup (String.mk (stripEdgeQuotes (trimWs arg))) e <;>
        simp [henv]
  · intro h s hs
    rw [findFinalAnswer, h, hs]
  · intro h hd s hs
    rw [findFinalAnswer, h, hd, hs]
  · intro h hd hs
    rw [findFinalAnswer, h, hd, hs]

/-- Witness for C1: a text in which a quoted `FINAL` marker occurs before the
`FINAL_VAR` marker still resolves through the variable. -/
theorem c1_witness :
    matchCallRaw finalVarOpen ("first FINAL(\x22y\x22) then FINAL_VAR(x)").data =
      some "x".data ∧
    findFinalAnswer "first FINAL(\x22y\x22) then FINAL_VAR(x)"
      (some [("x", .str "vx")]) = some "vx" := by
  refine ⟨by decide, ?_⟩
  have h := (c1_final_var_precedence "first FINAL(\x22y\x22) then FINAL_VAR(x)"
      (some [("x", .str "vx")])).1 "x".data (by decide)
  rw [h]
  decide

/-- C2: when a `FINAL_VAR` marker is syntactically detected but the
environment is absent or does not bind the normalised name, the result is the
absent value, without falling through to the `FINAL` literal/raw rules. -/
theorem c2_unresolved_var_absent (text : String) (arg : List Char)
    (h : matchCallRaw finalVarOpen text.data = some arg) :
    findFinalAnswer text none = none ∧
    (∀ env : List (String × JsValue),
      envLookup (String.mk (stripEdgeQuotes (trimWs arg))) env = none →
      findFinalAnswer text (some env) = none) := by
  constructor
  · rw [findFinalAnswer, h]
  · intro env henv
    rw [findFinalAnswer, h]
    simp only [henv]

/-- Witness for C2: `FINAL_VAR(x)` with an environment lacking `x` yields the
absent value even though a `FINAL("y")` literal is also present. -/
theorem c2_witness :
    findFinalAnswer "FINAL_VAR(x) and FINAL(\x22y\x22)" (some [("z", .null)]) = none := by
  have h := (c2_unresolved_var_absent "FINAL_VAR(x) and FINAL(\x22y\x22)" "x".data
      (by decide)).2 [("z", .null)] (by decide)
  exact h

/-- C3: a raw-argument `FINAL(arg)` capture is the argument text up to but
not including the first closing parenthesis; it never contains `)`, the rule
applies when no earlier rule matches, and `FINAL(calculate(1+2))` resolves to
`calculate(1+2`. -/
theorem c3_raw_truncation :
    (∀ (s cap : List Char), matchCallRaw finalOpen s = some cap →
      cap ≠ [] ∧ rpChar ∉ cap) ∧
    (∀ (text : String) (env : Option (List (String × JsValue))),
      matchCallRaw finalVarOpen text.data = none →
      matchQuoted dqChar text.data = none →
      matchQuoted sqChar text.data = none →
      findFinalAnswer text env = (matchCallRaw finalOpen text.data).map String.mk) ∧
    (∀ env, findFinalAnswer "FINAL(calculate(1+2))" env = some "calculate(1+2") := by
  refine ⟨matchCallRaw_sound finalOpen, ?_, ?_⟩
  · intro text env h hd hs
    rw [findFinalAnswer, h, hd, hs]
  · intro env
    rfl

/-- Witness for C3: the raw rule applied at a concrete text whose earlier
rules all fail. -/
theorem c3_witness :
    findFinalAnswer "the answer is FINAL(42), done" none = some "42" := by
  have h := c3_raw_truncation.2.1 "the answer is FINAL(42), done" none
      (by decide) (by decide) (by decide)
  rw [h]
  decide

/-- C4: a resolvable `FINAL_VAR` binding returns a string value unchanged and
any other value by its `JSON.stringify` serialisation: `123` gives `"123"`,
`[1,2,3]` gives `"[1,2,3]"`, an object gives its braced serialisation, and
the string `"hi"` is unchanged. -/
theorem c4_value_serialization :
    (∀ (text : String) (env : List (String × JsValue)) (arg : List Char) (v : JsValue),
      matchCallRaw finalVarOpen text.data = some arg →
      envLookup (String.mk (stripEdgeQuotes (trimWs arg))) env = some v →
      findFinalAnswer text (some env) = some (jsValueToString v)) ∧
    (∀ s, jsValueToString (.str s) = s) ∧
    findFinalAnswer "FINAL_VAR(count)" (some [("count", .num 123)]) = some "123" ∧
    findFinalAnswer "FINAL_VAR(items)"
      (some [("items", .arr (.cons (.num 1) (.cons (.num 2) (.cons (.num 3) .nil))))]) =
      some "[1,2,3]" ∧
    findFinalAnswer "FINAL_VAR(data)"
      (some [("data", .obj (.cons "key" (.str "value") .nil))]) =
      some "\x7b\x22key\x22:\x22value\x22\x7d" ∧
    findFinalAnswer "FINAL_VAR(greet)" (some [("greet", .str "hi")]) = some "hi" := by
  refine ⟨?_, ?_, by decide, by decide, by decide, by decide⟩
  · intro text env arg v h henv
    rw [findFinalAnswer, h]
    simp only [henv]
  · intro s; rfl

/-- Witness for C4: the general serialisation clause applied at a concrete
environment binding a number. -/
theorem c4_witness :
    findFinalAnswer "FINAL_VAR(n)" (some [("n", .num 7)]) = some "7" := by
  have h := c4_value_serialization.1 "FINAL_VAR(n)" [("n", .num 7)] "n".data (.num 7)
      (by decide) (by decide)
  rw [h]
  decide

/-- C10: before environment lookup the captured `FINAL_VAR` argument is
trimmed and then stripped of at most one leading and at most one trailing
quote character; the two stripped quotes need not match, and a lone-sided
quote is also stripped. -/
theorem c10_mismatched_quote_stripping :
    (∀ (s : List Char) (q1 q2 : Char), isQuote q1 = true → isQuote q2 = true →
      stripEdgeQuotes (q1 :: (s ++ [q2])) = s) ∧
    (∀ (c : Char) (s : List Char) (q : Char), isQuote c = false → isQuote q = true →
      stripEdgeQuotes ((c :: s) ++ [q]) = c :: s) ∧
    findFinalAnswer "FINAL_VAR(\x22name\x27)" (some [("name", .str "v1")]) = some "v1" ∧
    findFinalAnswer "FINAL_VAR(name\x27)" (some [("name", .str "v2")]) = some "v2" ∧
    findFinalAnswer "FINAL_VAR( \x22name\x27 )" (some [("name", .str "v3")]) = some "v3" := by
  refine ⟨?_, ?_, by decide, by decide, by decide⟩
  · intro s q1 q2 h1 h2
    simp [stripEdgeQuotes, h1, h2]
  · intro c s q hc hq
    simp [stripEdgeQuotes, hc, hq]

/-- Witness for C10: the mismatched-pair clause applied at a concrete
argument with a double quote on the left and a single quote on the right. -/
theorem c10_witness :
    stripEdgeQuotes (dqChar :: ("name".data ++ [sqChar])) = "name".data := by
  exact c10_mismatched_quote_stripping.1 "name".data dqChar sqChar (by decide) (by decide)

/-! ### Claims about the Prompt Composer -/

/-- C7: the metadata built by `createQueryMetadata` satisfies
`contextTotalLength = sum of contextLengths`, with one length entry per
logical chunk in source iteration order, and the empty list context yields
`⟨[0], 0, "list"⟩` rather than an error. -/
theorem c7_metadata_invariant :
    (∀ ctx : ContextVal,
      (createQueryMetadata ctx).contextTotalLength =
        ((createQueryMetadata ctx).contextLengths).sum) ∧
    (∀ s, createQueryMetadata (.str s) = ⟨[s.length], s.length, "str"⟩) ∧
    createQueryMetadata (.list []) = ⟨[0], 0, "list"⟩ ∧
    (∀ v vs,
      (createQueryMetadata (.list (v :: vs))).contextLengths = (v :: vs).map chunkLen ∧
      (createQueryMetadata (.list (v :: vs))).contextType = "list") ∧
    (∀ kvs,
      (createQueryMetadata (.dict kvs)).contextLengths =
        kvs.map (fun kv => chunkLen kv.2) ∧
      (createQueryMetadata (.dict kvs)).contextType = "dict") := by
  refine ⟨?_, ?_, by decide, ?_, ?_⟩
  · intro ctx
    match ctx with
    | .str s => simp [createQueryMetadata]
    | .list [] => simp [createQueryMetadata]
    | .list (c :: cs) => simp [createQueryMetadata, foldl_add_eq_sum]
    | .dict kvs => simp [createQueryMetadata, foldl_add_eq_sum]
  · intro s; rfl
  · intro v vs; exact ⟨rfl, rfl⟩
  · intro kvs; exact ⟨rfl, rfl⟩

/-- C8: `buildRlmSystemPrompt` returns exactly the system message carrying
the prompt verbatim followed by the assistant metadata sentence; a
chunk-length list longer than 100 renders its first 100 entries plus an
`... [k others]` suffix, and a 150-entry list renders exactly 100 lengths
plus `... [50 others]`. -/
theorem c8_system_turn :
    (∀ (sp : String) (m : QueryMetadata),
      buildRlmSystemPrompt sp m = [⟨.system, sp⟩, ⟨.assistant, metadataPrompt m⟩]) ∧
    (∀ ls : List Nat, ls.length > 100 →
      lengthsStr ls =
        "[" ++ String.intercalate ", " ((ls.take 100).map Nat.repr) ++
        "]... [" ++ Nat.repr (ls.length - 100) ++ " others]") ∧
    (∀ ls : List Nat, ¬ ls.length > 100 →
      lengthsStr ls = "[" ++ String.intercalate ", " (ls.map Nat.repr) ++ "]") ∧
    metadataPrompt ⟨List.replicate 150 7, 1050, "list"⟩ =
      "Your context is a list with 1050 total characters, and is broken up into chunks of char lengths: [" ++
      String.intercalate ", " (List.replicate 100 "7") ++ "]... [50 others]." := by
  refine ⟨fun sp m => rfl, ?_, ?_, by decide⟩
  · intro ls h
    rw [lengthsStr, if_pos h]
  · intro ls h
    rw [lengthsStr, if_neg h]

/-- Witness for C8: the truncation clause applied at the 150-entry list. -/
theorem c8_witness :
    lengthsStr (List.replicate 150 7) =
      "[" ++ String.intercalate ", " (((List.replicate 150 7).take 100).map Nat.repr) ++
      "]... [" ++ Nat.repr ((List.replicate 150 7 : List Nat).length - 100) ++ " others]" := by
  exact c8_system_turn.2.1 (List.replicate 150 7) (by decide)

/-! ### Claims about the Directive Extractor (`findCodeBlocks`) -/

/-- Split a character list into its lines (maximal `'\n'`-free runs). -/
def linesOf : List Char → List (List Char)
  | [] => [[]]
  | c :: tl =>
    if c = '\n' then [] :: linesOf tl
    else
      match linesOf tl with
      | [] => [[c]]
      | x :: xs => (c :: x) :: xs

/-- An example document: prose, a `typescript` fence, a `repl` fence, more
prose, and a second `repl` fence. -/
def segsEx : List Seg :=
  [ .prose "Intro text\n".data,
    .tagged "typescript".data "const ts = 1;".data,
    .repl "const a = 1;".data,
    .prose "\nmiddle\n".data,
    .repl "const b = 2;\nconsole.log(b);".data ]

/-- C5 counterexample: the claim as stated fails on in-scope documents.
First, a single well-formed `repl` fence whose content starts with a blank
line — `"```repl\n\nx\n```"`, content `"\nx"` — yields `["x"]`: the greedy
`\s*` of the regex absorbs the blank line, so the content is not preserved
verbatim.  Second, the document `md` fence + prose `"repl\nB"` + `repl`
fence with content `"C"` — `"```md\nx\n```repl\nB```repl\nC\n```"` — yields
the fabricated block `["B```repl\nC"]` spanning a fence boundary instead of
`["C"]`, so the result is not the `repl` contents and is affected by the
surrounding material. -/
theorem c5_counterexample :
    findCodeBlocks (String.mk (renderDoc [Seg.repl "\nx".data])) = ["x"] ∧
    (replContents [Seg.repl "\nx".data]).map String.mk = ["\nx"] ∧
    findCodeBlocks (String.mk (renderDoc [Seg.repl "\nx".data])) ≠
      (replContents [Seg.repl "\nx".data]).map String.mk ∧
    String.mk (renderDoc [Seg.repl "\nx".data]) = "```repl\n\nx\n```" ∧
    findCodeBlocks (String.mk (renderDoc
      [Seg.tagged "md".data "x".data, Seg.prose "repl\nB".data,
       Seg.repl "C".data])) = ["B```repl\nC"] ∧
    (replContents [Seg.tagged "md".data "x".data, Seg.prose "repl\nB".data,
       Seg.repl "C".data]).map String.mk = ["C"] ∧
    String.mk (renderDoc [Seg.tagged "md".data "x".data,
       Seg.prose "repl\nB".data, Seg.repl "C".data]) =
      "```md\nx\n```repl\nB```repl\nC\n```" := by
  exact ⟨by decide, by decide, by decide, by decide, by decide, by decide,
    by decide⟩

/-- C5 (amended): for every well-formed document — `repl`-fence contents
nonempty, not starting with whitespace and free of the closing delimiter
`"\n```"`; other fences carrying a whitespace- and backtick-free tag other
than `repl` with backtick-free content; prose backtick-free; and no segment
boundary continuing with the bare word `repl` — `findCodeBlocks` returns
exactly the `n` `repl` contents, in source order and verbatim, unaffected by
the `m` other fences; and on any text in which `` ```repl `` never occurs it
returns the empty list, never an error.  (The well-formedness conditions are
forced by the counterexample: a content starting with a blank line is eaten
by the greedy `\s*`, and a fence boundary followed by the word `repl`
fabricates a block.) -/
theorem c5_directive_extraction :
    (∀ segs : List Seg, wfDoc segs = true →
      findCodeBlocks (String.mk (renderDoc segs)) =
        (replContents segs).map String.mk) ∧
    (∀ text : String, findSub fenceWord text.data = none →
      findCodeBlocks text = []) := by
  constructor
  · intro segs hw
    show (scanAux (renderDoc segs).length (renderDoc segs)).map String.mk = _
    rw [scanAux_renderDoc segs hw _ (Nat.le_refl _)]
  · intro text h
    show (scanAux text.data.length text.data).map String.mk = _
    rw [scanAux_no_fence text.data _ h]
    rfl

/-- Witness for C5: the example document is well-formed and extraction
returns exactly its two `repl` blocks, in order, ignoring the `typescript`
fence and the prose. -/
theorem c5_witness :
    wfDoc segsEx = true ∧
    findCodeBlocks (String.mk (renderDoc segsEx)) =
      ["const a = 1;", "const b = 2;\nconsole.log(b);"] := by
  refine ⟨by decide, ?_⟩
  rw [c5_directive_extraction.1 segsEx (by decide)]
  decide

/-- C6 counterexample: the code extracts a block from a text whose only
backtick lines are `` ```repl `` and `` ```extra `` — no line consists of
exactly three backticks, so under the claimed grammar no block would be
delimited. -/
theorem c6_counterexample :
    findCodeBlocks "```repl\ncode\n```extra" = ["code"] ∧
    ((linesOf ("```repl\ncode\n```extra").data).contains "```".data) = false := by
  exact ⟨by decide, by decide⟩

/-- C6 (amended): a block opens at the literal `` ```repl `` followed by
whitespace ending in a newline and closes at the first subsequent occurrence
of a newline immediately followed by three backticks; the remainder of the
closing line is ignored (it need not consist of exactly three backticks). -/
theorem c6_block_delimiting_amended :
    (∀ (a : Char) (c' t' : List Char), isWs a = false →
      findSub nlFence (a :: c') = none →
      matchRepl (fenceWord ++ ('\n' :: ((a :: c') ++ (nlFence ++ t')))) =
        some (a :: c', t')) ∧
    findCodeBlocks "```repl\ncode\n```extra" = ["code"] := by
  exact ⟨matchRepl_at_fence, by decide⟩

/-- Witness for C6: the amended delimiting rule at concrete content
`hello` and closing-line remainder `tail`. -/
theorem c6_witness :
    matchRepl (fenceWord ++ ('\n' :: ("hello".data ++ (nlFence ++ "tail".data)))) =
      some ("hello".data, "tail".data) := by
  exact c6_block_delimiting_amended.1 'h' "ello".data "tail".data
    (by decide) (by decide)

/-- C9: `buildUserPrompt` appends, in order, at most two optional notices to
the base prompt — the multi-context notice exactly when `contextCount > 1`
(naming `context_0` through `context_{n-1}`) followed by the history notice
exactly when `historyCount > 0`, singular for one history and plural (naming
`history_0` through `history_{n-1}`) for more; with `contextCount = 3` and
`historyCount = 1` both the three-context notice and the singular history
notice appear, in that order. -/
theorem c9_user_turn_notices :
    (∀ o : Option PromptOptions, (buildUserPrompt o).role = .user) ∧
    (∀ o : PromptOptions,
      (buildUserPrompt (some o)).content =
        userBasePrompt o ++
        (if o.contextCount > 1 then contextNotice o.contextCount else "") ++
        (if o.historyCount > 0 then
          (if o.historyCount = 1 then historyNoticeOne
           else historyNoticeMany o.historyCount)
         else "")) ∧
    contextNotice 3 =
      "\n\nNote: You have 3 contexts available (context_0 through context_2)." ∧
    historyNoticeMany 2 =
      "\n\nNote: You have 2 prior conversation histories available (history_0 through history_1)." ∧
    (buildUserPrompt (some { contextCount := 3, historyCount := 1 })).content =
      userBasePrompt { contextCount := 3, historyCount := 1 } ++
      "\n\nNote: You have 3 contexts available (context_0 through context_2)." ++
      "\n\nNote: You have 1 prior conversation history available in the `history` variable." := by
  refine ⟨fun o => rfl, fun o => rfl, by decide, by decide, by decide⟩

end Amadeus
